import Mathlib

/-!
Shallow embedding of the image-compressor orchestration core
(`src/unnamed/part_000` of asif420570/Image-compressor).

The source is a browser script.  Its orchestration state is:
  * `imageFilesState : ImageFileState[]` — the job store;
  * `nextId : number` — the id generator;
  * object URLs created by `URL.createObjectURL` and released by
    `URL.revokeObjectURL` — the view handles of the spec;
  * the set of outstanding `compressToTargetSize` awaits — the in-flight
    transformation runs.

We embed this as an explicit `World` record.  View handles are numbered by a
fresh counter `nextUrl`; `createdUrls` and `revokedUrls` record, in order,
every handle returned by `URL.createObjectURL` and every handle passed to
`URL.revokeObjectURL`, so that leak/double-release accounting is expressible.
An outstanding transformation run is a `PendingRun`; the environment resolves
it later via `completeSuccess` (with an arbitrary output-buffer token chosen
by the opaque external `imageCompression` collaborator) or `completeFailure`.
Files and output buffers are identified by natural-number tokens: the core
never inspects their bytes.

JavaScript numbers reaching the orchestration core come from `parseFloat`
and can be NaN or ±Infinity; `JSNum` models them.  The arithmetic the core
performs on them — multiplication and division by the positive powers of two
1024 and 1024² — is exact on binary floating point (it only shifts the
exponent), so modelling finite values by `ℚ` is faithful for these
operations.
-/

namespace ImageCompressor

/-- The `type ImageStatus = 'compressing' | 'done' | 'error'` (source line 4). -/
inductive ImageStatus where
  | compressing
  | done
  | error
deriving DecidableEq

/-- The `type SizeUnit = 'KB' | 'MB'` (source line 5). -/
inductive SizeUnit where
  | KB
  | MB
deriving DecidableEq

/-- A JavaScript number as produced by `parseFloat`: NaN, ±Infinity, or a
finite value (modelled exactly as a rational; see the header comment). -/
inductive JSNum where
  | nan
  | posInf
  | negInf
  | num (q : ℚ)
deriving DecidableEq

/-- The `isNaN(x)` on a `JSNum`. -/
def JSNum.isNaN : JSNum → Bool
  | .nan => true
  | _ => false

/-- The JavaScript comparison `x <= 0` (false on NaN, false on +Infinity,
true on -Infinity). -/
def JSNum.leZero : JSNum → Bool
  | .nan => false
  | .posInf => false
  | .negInf => true
  | .num q => decide (q ≤ 0)

/-- JavaScript multiplication of a number by a natural-number literal
(the source only multiplies by the positive constants 1024 and 1024²;
`Infinity * 0` would be NaN, faithfully included). -/
def jsMulNat : JSNum → Nat → JSNum
  | .nan, _ => .nan
  | .posInf, k => if k = 0 then .nan else .posInf
  | .negInf, k => if k = 0 then .nan else .negInf
  | .num q, k => .num (q * (k : ℚ))

/-- JavaScript division of a number by a positive natural-number literal
(the source only divides by 1024). -/
def jsDivNat : JSNum → Nat → JSNum
  | .nan, _ => .nan
  | .posInf, _ => .posInf
  | .negInf, _ => .negInf
  | .num q, k => .num (q / (k : ℚ))

/-- The `interface ImageFileState` (source lines 7–16).  `originalFile` and
`compressedFile` are opaque buffer tokens; `originalUrl`/`compressedUrl`
are view-handle numbers issued by the modelled `URL.createObjectURL`. -/
structure ImageFileState where
  id : Nat
  originalFile : Nat
  originalUrl : Nat
  compressedFile : Option Nat
  compressedUrl : Option Nat
  status : ImageStatus
  targetSize : JSNum
  targetUnit : SizeUnit
deriving DecidableEq

/-- One outstanding `compressToTargetSize` invocation, suspended at
`await imageCompression(fileState.originalFile, compressionOptions)`
(source line 195).  `sourceFile` is the captured `fileState.originalFile`;
`targetBytes` is the `targetSizeBytes` argument and `maxSizeMB` the
`targetSizeBytes / 1024 / 1024` option actually handed to the external
transformation (source line 190). -/
structure PendingRun where
  id : Nat
  sourceFile : Nat
  targetBytes : JSNum
  maxSizeMB : JSNum
deriving DecidableEq

/-- Builds the suspended run registered by `compressToTargetSize`,
computing `maxSizeMB: targetSizeBytes / 1024 / 1024` as the source does. -/
def mkRun (id sourceFile : Nat) (targetBytes : JSNum) : PendingRun :=
  { id := id, sourceFile := sourceFile, targetBytes := targetBytes,
    maxSizeMB := jsDivNat (jsDivNat targetBytes 1024) 1024 }

/-- The whole mutable session state: the store `imageFilesState` and the id
generator `nextId` (source lines 42–43), plus the view-handle bookkeeping and
the outstanding runs described in the header comment. -/
structure World where
  imageFilesState : List ImageFileState
  nextId : Nat
  nextUrl : Nat
  createdUrls : List Nat
  revokedUrls : List Nat
  pending : List PendingRun
deriving DecidableEq

/-- The state at page load: empty store, `nextId = 0`, no handles, no runs. -/
def initialWorld : World :=
  { imageFilesState := [], nextId := 0, nextUrl := 0,
    createdUrls := [], revokedUrls := [], pending := [] }

/-- The `URL.createObjectURL`: returns a fresh handle and records its creation. -/
def createObjectURL (w : World) : Nat × World :=
  (w.nextUrl,
   { w with nextUrl := w.nextUrl + 1, createdUrls := w.createdUrls ++ [w.nextUrl] })

/-- The `URL.revokeObjectURL`: records the release of a handle. -/
def revokeObjectURL (h : Nat) (w : World) : World :=
  { w with revokedUrls := w.revokedUrls ++ [h] }

/-- The `updateFileState` (source lines 52–57): `findIndex` the first entry with
this id and merge the updates into it; silently a no-op when absent. -/
def updateFileState (id : Nat) (upd : ImageFileState → ImageFileState) :
    List ImageFileState → List ImageFileState
  | [] => []
  | f :: fs => if f.id = id then upd f :: fs else f :: updateFileState id upd fs

/-- The `imageFilesState.find(f => f.id === id)`, used throughout the source. -/
def findFile (id : Nat) (l : List ImageFileState) : Option ImageFileState :=
  l.find? (fun f => f.id == id)

/-- The `multiplier` computed at source lines 156 and 295:
`targetUnit === 'MB' ? 1024 * 1024 : 1024`. -/
def multOf (u : SizeUnit) : Nat :=
  match u with
  | .MB => 1024 * 1024
  | .KB => 1024

/-- The `compressToTargetSize` (source lines 179–207) up to its suspension
point: bail out if the id is absent; unless `suppressInitialRender`, mark
the job `compressing`; then invoke the external transformation — modelled
by registering a `PendingRun` whose resolution is a later
`completeSuccess`/`completeFailure` step. -/
def compressToTargetSize (id : Nat) (targetBytes : JSNum) (suppress : Bool)
    (w : World) : World :=
  match findFile id w.imageFilesState with
  | none => w
  | some fs =>
    let w₁ := if suppress then w else
      { w with imageFilesState :=
          updateFileState id (fun f => { f with status := .compressing }) w.imageFilesState }
    { w₁ with pending := w₁.pending ++ [mkRun id fs.originalFile targetBytes] }

/-- Resolution of the `await` in `compressToTargetSize` when the external
transformation fulfils with output buffer `output` (source lines 195–201):
the run is no longer outstanding; `URL.createObjectURL(compressedFile)` is
called; then `updateFileState` stores status/result — a silent no-op if the
job was removed meanwhile.  `i` selects which outstanding run resolves
(completion order across jobs is unconstrained). -/
def completeSuccess (i : Nat) (output : Nat) (w : World) : World :=
  match w.pending.get? i with
  | none => w
  | some p =>
    let w₁ := { w with pending := w.pending.eraseIdx i }
    let uw := createObjectURL w₁
    let files' :=
      updateFileState p.id
        (fun f => { f with status := .done, compressedFile := some output,
                           compressedUrl := some uw.1 })
        uw.2.imageFilesState
    { uw.2 with imageFilesState := files' }

/-- Resolution of the `await` when the external transformation rejects
(source lines 202–205): the run is no longer outstanding and only
`status: 'error'` is merged — a silent no-op if the job was removed. -/
def completeFailure (i : Nat) (w : World) : World :=
  match w.pending.get? i with
  | none => w
  | some p =>
    let files' :=
      updateFileState p.id (fun f => { f with status := .error }) w.imageFilesState
    { w with pending := w.pending.eraseIdx i, imageFilesState := files' }

/-- The `runCompressionForId` (source lines 152–159). -/
def runCompressionForId (id : Nat) (w : World) : World :=
  match findFile id w.imageFilesState with
  | none => w
  | some fs =>
    compressToTargetSize id (jsMulNat fs.targetSize (multOf fs.targetUnit)) false w

/-- The creation half of `processFiles` (source lines 162–171): one new job
per submitted file, ids from `nextId++`, a fresh source view handle each,
status `compressing`, default target 500 KB. -/
def createJobs (files : List Nat) (w : World) : List ImageFileState × World :=
  match files with
  | [] => ([], w)
  | file :: rest =>
    let uw := createObjectURL w
    let j : ImageFileState :=
      { id := uw.2.nextId, originalFile := file, originalUrl := uw.1,
        compressedFile := none, compressedUrl := none,
        status := .compressing, targetSize := .num 500, targetUnit := .KB }
    let jsw := createJobs rest { uw.2 with nextId := uw.2.nextId + 1 }
    (j :: jsw.1, jsw.2)

/-- The `newFiles.forEach(file => runCompressionForId(file.id))`
(source line 176). -/
def dispatchRuns (js : List ImageFileState) (w : World) : World :=
  match js with
  | [] => w
  | j :: rest => dispatchRuns rest (runCompressionForId j.id w)

/-- The `processFiles` (source lines 161–177): create the jobs, push them onto
the store, then dispatch a run for each. -/
def processFiles (files : List Nat) (w : World) : World :=
  let jw := createJobs files w
  dispatchRuns jw.1 { jw.2 with imageFilesState := jw.2.imageFilesState ++ jw.1 }

/-- The `handleRemoveImage` (source lines 237–247): revoke the job's two view
handles (result handle only if present), then filter the job out. -/
def handleRemoveImage (id : Nat) (w : World) : World :=
  let w₁ :=
    match findFile id w.imageFilesState with
    | none => w
    | some f =>
      let wa := revokeObjectURL f.originalUrl w
      match f.compressedUrl with
      | some h => revokeObjectURL h wa
      | none => wa
  { w₁ with imageFilesState := w₁.imageFilesState.filter (fun f => !(f.id == id)) }

/-- The `handleTargetSizeApply` (source lines 249–252): merge the new target
parameters, then re-run. -/
def handleTargetSizeApply (id : Nat) (newSize : JSNum) (newUnit : SizeUnit)
    (w : World) : World :=
  let files' :=
    updateFileState id
      (fun f => { f with targetSize := newSize, targetUnit := newUnit })
      w.imageFilesState
  runCompressionForId id { w with imageFilesState := files' }

/-- The `handleReset` (source lines 254–270): no-op on an absent id; otherwise
revoke the result view handle if present, clear the result fields, restore
the default target parameters (500, KB), and re-run. -/
def handleReset (id : Nat) (w : World) : World :=
  match findFile id w.imageFilesState with
  | none => w
  | some fs =>
    let w₁ :=
      match fs.compressedUrl with
      | some h => revokeObjectURL h w
      | none => w
    let files' :=
      updateFileState id
        (fun f => { f with compressedFile := none, compressedUrl := none,
                           targetSize := .num 500, targetUnit := .KB })
        w₁.imageFilesState
    runCompressionForId id { w₁ with imageFilesState := files' }

/-- The first `filesToUpdate.forEach` of `handleApplyToAll` (source lines
284–290): batch-update every selected job to the new parameters and status
`compressing` before any dispatch. -/
def applyToAllBatch (s : JSNum) (u : SizeUnit) (sel : List ImageFileState)
    (w : World) : World :=
  match sel with
  | [] => w
  | f :: rest =>
    let files' :=
      updateFileState f.id
        (fun g => { g with targetSize := s, targetUnit := u,
                           status := .compressing })
        w.imageFilesState
    applyToAllBatch s u rest { w with imageFilesState := files' }

/-- The second `filesToUpdate.forEach` of `handleApplyToAll` (source lines
294–298): dispatch a run for each selected job with
`suppressInitialRender`. -/
def applyToAllDispatch (s : JSNum) (u : SizeUnit) (sel : List ImageFileState)
    (w : World) : World :=
  match sel with
  | [] => w
  | f :: rest =>
    applyToAllDispatch s u rest
      (compressToTargetSize f.id (jsMulNat s (multOf u)) true w)

/-- The `handleApplyToAll` (source lines 272–299): reject NaN or non-positive
sizes before touching any state; select the jobs whose status is not
`error`; return early if none; otherwise batch-update then dispatch. -/
def handleApplyToAll (s : JSNum) (u : SizeUnit) (w : World) : World :=
  if s.isNaN || s.leZero then w
  else
    let sel := w.imageFilesState.filter (fun f => !(f.status == .error))
    if sel.length = 0 then w
    else applyToAllDispatch s u sel (applyToAllBatch s u sel w)

/-- The per-job handle release performed inside `handleClearAll`
(source lines 302–305). -/
def releaseJobUrls (f : ImageFileState) (w : World) : World :=
  let w₁ := revokeObjectURL f.originalUrl w
  match f.compressedUrl with
  | some h => revokeObjectURL h w₁
  | none => w₁

/-- The `imageFilesState.forEach(...)` of `handleClearAll`. -/
def releaseAll : List ImageFileState → World → World
  | [], w => w
  | f :: rest, w => releaseAll rest (releaseJobUrls f w)

/-- The `handleClearAll` (source lines 301–309): revoke every job's handles,
empty the store, reset the id generator. -/
def handleClearAll (w : World) : World :=
  { releaseAll w.imageFilesState w with imageFilesState := [], nextId := 0 }

/-- The `anyCompressing` of `updateGlobalUI` (source line 137). -/
def anyCompressing (l : List ImageFileState) : Bool :=
  l.any (fun f => f.status == .compressing)

/-- The `anyDone` of `updateGlobalUI` (source line 138). -/
def anyDone (l : List ImageFileState) : Bool :=
  l.any (fun f => f.status == .done)

/-- The `readyToDownloadCount` of `updateGlobalUI` (source line 143): the badge
count of jobs that are `done` with a non-null `compressedFile`. -/
def readyToDownloadCount (l : List ImageFileState) : Nat :=
  (l.filter (fun f => f.status == .done && f.compressedFile.isSome)).length

/-- Enablement of the download-all (export) button:
`downloadAllBtn.disabled = anyCompressing || !anyDone` (source line 139). -/
def downloadAllEnabled (l : List ImageFileState) : Bool :=
  !(anyCompressing l || !anyDone l)

/-- Enablement of apply-to-all: `applyToAllBtn.disabled = anyCompressing`
(source line 140). -/
def applyToAllEnabled (l : List ImageFileState) : Bool :=
  !(anyCompressing l)

/-- Enablement of clear-all: `clearAllBtn.disabled = anyCompressing`
(source line 141). -/
def clearAllEnabled (l : List ImageFileState) : Bool :=
  !(anyCompressing l)

/-- The worlds reachable from page load by the user-intent operations and
by resolutions of outstanding transformation runs.  (UI guards restrict
which clicks can actually occur; this relation deliberately omits them, so
it over-approximates the truly reachable worlds — an invariant proved over
`Reachable` holds a fortiori of every guard-respecting execution.) -/
inductive Reachable : World → Prop where
  | init : Reachable initialWorld
  | submit (files : List Nat) {w : World} :
      Reachable w → Reachable (processFiles files w)
  | remove (id : Nat) {w : World} :
      Reachable w → Reachable (handleRemoveImage id w)
  | applyItem (id : Nat) (s : JSNum) (u : SizeUnit) {w : World} :
      Reachable w → Reachable (handleTargetSizeApply id s u w)
  | reset (id : Nat) {w : World} :
      Reachable w → Reachable (handleReset id w)
  | applyAll (s : JSNum) (u : SizeUnit) {w : World} :
      Reachable w → Reachable (handleApplyToAll s u w)
  | clearAll {w : World} :
      Reachable w → Reachable (handleClearAll w)
  | completeOk (i output : Nat) {w : World} :
      Reachable w → Reachable (completeSuccess i output w)
  | completeErr (i : Nat) {w : World} :
      Reachable w → Reachable (completeFailure i w)

/-- Store invariant (a) of the spec: at most one job per id — stated as
`Nodup` of the id column. -/
def UniqueIds (l : List ImageFileState) : Prop :=
  (l.map (fun f => f.id)).Nodup

/-- Spec §3 invariant relating `status` and the result buffer, used to
relate the badge count to the plain `done` count. -/
def JobOk (f : ImageFileState) : Prop :=
  f.status = .done → f.compressedFile.isSome = true

/-- The `JobOk` for every job in the store. -/
def FilesOk (l : List ImageFileState) : Prop :=
  ∀ f ∈ l, JobOk f

section StoreLemmas

variable {l : List ImageFileState} {id : Nat} {upd : ImageFileState → ImageFileState}

theorem updateFileState_of_findFile_none (h : findFile id l = none) :
    updateFileState id upd l = l := by
  induction l with
  | nil => rfl
  | cons f fs ih =>
    by_cases hf : f.id = id
    · simp [findFile, List.find?_cons, hf] at h
    · have hbeq : (f.id == id) = false := by simpa using hf
      simp only [findFile, List.find?_cons, hbeq] at h
      simp only [updateFileState, if_neg hf]
      rw [ih h]

theorem mem_updateFileState {f' : ImageFileState}
    (h : f' ∈ updateFileState id upd l) : f' ∈ l ∨ ∃ f ∈ l, f' = upd f := by
  induction l with
  | nil => simp [updateFileState] at h
  | cons f fs ih =>
    simp only [updateFileState] at h
    by_cases hf : f.id = id
    · rw [if_pos hf] at h
      rcases List.mem_cons.mp h with h | h
      · exact Or.inr ⟨f, List.mem_cons_self f fs, h⟩
      · exact Or.inl (List.mem_cons_of_mem f h)
    · rw [if_neg hf] at h
      rcases List.mem_cons.mp h with h | h
      · exact Or.inl (h ▸ List.mem_cons_self f fs)
      · rcases ih h with h | ⟨g, hg, hgeq⟩
        · exact Or.inl (List.mem_cons_of_mem f h)
        · exact Or.inr ⟨g, List.mem_cons_of_mem f hg, hgeq⟩

theorem length_updateFileState :
    (updateFileState id upd l).length = l.length := by
  induction l with
  | nil => rfl
  | cons f fs ih =>
    simp only [updateFileState]
    by_cases hf : f.id = id
    · simp [hf]
    · simp [hf, ih]

theorem updateFileState_comp (upd₂ : ImageFileState → ImageFileState)
    (hid : ∀ f, (upd f).id = f.id) :
    updateFileState id upd₂ (updateFileState id upd l) =
      updateFileState id (fun f => upd₂ (upd f)) l := by
  induction l with
  | nil => rfl
  | cons f fs ih =>
    simp only [updateFileState]
    by_cases hf : f.id = id
    · simp [hf, updateFileState, hid f]
    · simp [hf, updateFileState, ih]

theorem findFile_updateFileState (hid : ∀ f, (upd f).id = f.id) :
    findFile id (updateFileState id upd l) = (findFile id l).map upd := by
  induction l with
  | nil => rfl
  | cons f fs ih =>
    by_cases hf : f.id = id
    · simp [updateFileState, findFile, List.find?_cons, hf, hid f]
    · have hbeq : (f.id == id) = false := by simpa using hf
      simp only [updateFileState, if_neg hf, findFile, List.find?_cons, hbeq]
      simpa [findFile] using ih

theorem forall₂_updateFileState {R : ImageFileState → ImageFileState → Prop}
    (hrefl : ∀ f, R f f) (hupd : ∀ f, f.id = id → R f (upd f)) :
    List.Forall₂ R l (updateFileState id upd l) := by
  induction l with
  | nil => exact List.Forall₂.nil
  | cons f fs ih =>
    simp only [updateFileState]
    by_cases hf : f.id = id
    · rw [if_pos hf]
      exact List.Forall₂.cons (hupd f hf) (List.forall₂_same.mpr fun x _ => hrefl x)
    · rw [if_neg hf]
      exact List.Forall₂.cons (hrefl f) ih

theorem findFile_of_nodup_mem {f : ImageFileState}
    (hU : UniqueIds l) (hf : f ∈ l) : findFile f.id l = some f := by
  induction l with
  | nil => simp at hf
  | cons g fs ih =>
    simp only [UniqueIds, List.map_cons, List.nodup_cons] at hU
    rcases List.mem_cons.mp hf with rfl | hf'
    · simp [findFile, List.find?_cons]
    · have hne : g.id ≠ f.id := by
        intro h
        exact hU.1 (h ▸ List.mem_map_of_mem (fun x => x.id) hf')
      have hbeq : (g.id == f.id) = false := by
        simpa using hne
      simp only [findFile, List.find?_cons, hbeq]
      exact ih hU.2 hf'

theorem findFile_map {imgF : ImageFileState → ImageFileState} (j : Nat)
    (hid : ∀ f, (imgF f).id = f.id) :
    findFile j (l.map imgF) = (findFile j l).map imgF := by
  induction l with
  | nil => rfl
  | cons f fs ih =>
    simp only [List.map_cons, findFile, List.find?_cons, hid f]
    by_cases hf : f.id = j
    · simp [hf]
    · have hbeq : (f.id == j) = false := by simpa using hf
      simp only [hbeq]
      simpa [findFile] using ih

theorem filesOk_updateFileState (hok : FilesOk l)
    (hupd : ∀ f, JobOk f → JobOk (upd f)) :
    FilesOk (updateFileState id upd l) := by
  intro f' hf'
  rcases mem_updateFileState hf' with h | ⟨f, hf, rfl⟩
  · exact hok f' h
  · exact hupd f (hok f hf)

end StoreLemmas

/-- A store entry that has completed one successful run: `done`, with a
result buffer and a result view handle. -/
def sampleDoneJob : ImageFileState :=
  { id := 0, originalFile := 10, originalUrl := 0,
    compressedFile := some 100, compressedUrl := some 1,
    status := .done, targetSize := .num 500, targetUnit := .KB }

/-- A session holding `sampleDoneJob` with no outstanding run. -/
def sampleWorld0 : World :=
  { imageFilesState := [sampleDoneJob], nextId := 1, nextUrl := 2,
    createdUrls := [0, 1], revokedUrls := [], pending := [] }

/-- A session holding `sampleDoneJob` with one outstanding run for it. -/
def sampleWorld1 : World :=
  { imageFilesState := [sampleDoneJob], nextId := 1, nextUrl := 2,
    createdUrls := [0, 1], revokedUrls := [], pending := [mkRun 0 10 (.num 512000)] }

/-- A job in the `error` state, alongside `sampleDoneJob` in mixed stores. -/
def sampleErrorJob : ImageFileState :=
  { id := 1, originalFile := 11, originalUrl := 2,
    compressedFile := none, compressedUrl := none,
    status := .error, targetSize := .num 500, targetUnit := .KB }

/-- A mixed-status session: one `done` job and one `error` job, no
outstanding runs. -/
def sampleWorldMixed : World :=
  { imageFilesState := [sampleDoneJob, sampleErrorJob], nextId := 2, nextUrl := 3,
    createdUrls := [0, 1, 2], revokedUrls := [], pending := [] }

/-- C1, demonstration of the leak: submit one image (source handle 0); its
run succeeds (result handle 1, job `done`, Apply enabled); apply a new
400 KB target to it; the re-run succeeds (result handle 2 replaces handle 1
with no `URL.revokeObjectURL` — source lines 197–201 contain none);
clear-all (enabled: nothing compressing) revokes only handles 0 and 2.
Handle 1 was created, is referenced by no job, the session is cleared, and
it was never released — contradicting the claim that the existing result
view handle is released immediately before being replaced and that every
handle is released exactly once by session clearing. -/
theorem rerunLeak_demo :
    ((completeSuccess 0 100 (processFiles [10] initialWorld)).imageFilesState.map
        (fun f => f.status)) = [ImageStatus.done] ∧
    anyCompressing (completeSuccess 0 101 (handleTargetSizeApply 0 (JSNum.num 400)
        SizeUnit.KB (completeSuccess 0 100 (processFiles [10] initialWorld)))).imageFilesState
      = false ∧
    (handleClearAll (completeSuccess 0 101 (handleTargetSizeApply 0 (JSNum.num 400)
        SizeUnit.KB (completeSuccess 0 100 (processFiles [10] initialWorld))))).imageFilesState
      = [] ∧
    (handleClearAll (completeSuccess 0 101 (handleTargetSizeApply 0 (JSNum.num 400)
        SizeUnit.KB (completeSuccess 0 100 (processFiles [10] initialWorld))))).createdUrls
      = [0, 1, 2] ∧
    (handleClearAll (completeSuccess 0 101 (handleTargetSizeApply 0 (JSNum.num 400)
        SizeUnit.KB (completeSuccess 0 100 (processFiles [10] initialWorld))))).revokedUrls
      = [0, 2] ∧
    ¬ (1 ∈ (handleClearAll (completeSuccess 0 101 (handleTargetSizeApply 0 (JSNum.num 400)
        SizeUnit.KB (completeSuccess 0 100 (processFiles [10] initialWorld))))).revokedUrls) := by
  decide

/-- C4, demonstration: submit one image (source handle 0); remove it while
its run is in flight (handle 0 revoked, store empty); the run then
succeeds.  The store is left unchanged (empty — no throw, no resurrection,
the no-op `updateFileState` of source lines 52–57), and the run is retired;
but `URL.createObjectURL(compressedFile)` was evaluated before the no-op
merge (source line 200), so result handle 1 exists, is referenced by no
job, and is never revoked — a leaked view handle, contradicting the
claim's "no view handle is leaked". -/
theorem staleSuccessLeak_demo :
    (completeSuccess 0 100 (handleRemoveImage 0 (processFiles [10] initialWorld))).imageFilesState
      = (handleRemoveImage 0 (processFiles [10] initialWorld)).imageFilesState ∧
    (completeSuccess 0 100 (handleRemoveImage 0 (processFiles [10] initialWorld))).imageFilesState
      = [] ∧
    (completeSuccess 0 100 (handleRemoveImage 0 (processFiles [10] initialWorld))).pending = [] ∧
    (completeSuccess 0 100 (handleRemoveImage 0 (processFiles [10] initialWorld))).createdUrls
      = [0, 1] ∧
    (completeSuccess 0 100 (handleRemoveImage 0 (processFiles [10] initialWorld))).revokedUrls
      = [0] ∧
    ¬ (1 ∈ (completeSuccess 0 100 (handleRemoveImage 0 (processFiles [10] initialWorld))).revokedUrls) := by
  decide

/-- C2, counterexample: `Infinity` is not a positive finite number, yet
`isNaN(Infinity) || Infinity <= 0` is false, so `handleApplyToAll` accepts
it and mutates the store: the `done` job of `sampleWorld0` is flipped to
`compressing` and a transformation run is dispatched — refuting the claim
that every non-finite size is rejected with the store left unchanged. -/
theorem applyToAll_infinity_mutates :
    JSNum.isNaN .posInf = false ∧ JSNum.leZero .posInf = false ∧
    (handleApplyToAll .posInf .KB sampleWorld0).imageFilesState.map (fun f => f.status)
      = [ImageStatus.compressing] ∧
    (handleApplyToAll .posInf .KB sampleWorld0).pending.length = 1 ∧
    ¬ handleApplyToAll .posInf .KB sampleWorld0 = sampleWorld0 := by
  decide

/-- C2 as amended: `handleApplyToAll` rejects exactly the sizes that are
NaN or satisfy the JavaScript comparison `size <= 0`, and on rejection the
whole world — every job's every field, the pending runs, the handles — is
left unchanged. -/
theorem applyToAll_rejects_invalid (w : World) (s : JSNum) (u : SizeUnit)
    (h : (s.isNaN || s.leZero) = true) :
    handleApplyToAll s u w = w := by
  simp [handleApplyToAll, h]

/-- Witness for `applyToAll_rejects_invalid` at NaN (a non-numeric input
such as an empty size field) on the mixed-status store. -/
theorem applyToAll_rejects_invalid_witness :
    (JSNum.isNaN .nan || JSNum.leZero .nan) = true ∧
    handleApplyToAll .nan .KB sampleWorldMixed = sampleWorldMixed :=
  ⟨rfl, applyToAll_rejects_invalid sampleWorldMixed .nan .KB rfl⟩

/-- C6, counterexample: submit an image (job id 0, run dispatched); remove
it while the run is in flight; clear-all (its button is enabled — nothing
in the store is compressing) resets `nextId` to 0; submit another image.
The new job reuses id 0 and `processFiles` dispatches a run for it while
the first run for id 0 is still outstanding: two concurrent runs for the
same id, refuting the claim that this can never happen under any reachable
operation sequence. -/
theorem idReuse_concurrentRuns :
    (findFile 0 (processFiles [10] initialWorld).imageFilesState).isSome = true ∧
    anyCompressing (handleRemoveImage 0 (processFiles [10] initialWorld)).imageFilesState
      = false ∧
    ((handleClearAll (handleRemoveImage 0 (processFiles [10] initialWorld))).pending.filter
        (fun p => p.id == 0)).length = 1 ∧
    ((processFiles [20] (handleClearAll (handleRemoveImage 0
        (processFiles [10] initialWorld)))).pending.filter
        (fun p => p.id == 0)).length = 2 := by
  decide

/-- Pairwise frame condition for a failed run of the job with id `pid`:
every field except `status` is preserved in every job; jobs with another id
are entirely untouched; a status can only change to `error`. -/
def resultPreserved (pid : Nat) (f f' : ImageFileState) : Prop :=
  f'.id = f.id ∧ f'.originalFile = f.originalFile ∧ f'.originalUrl = f.originalUrl ∧
  f'.compressedFile = f.compressedFile ∧ f'.compressedUrl = f.compressedUrl ∧
  f'.targetSize = f.targetSize ∧ f'.targetUnit = f.targetUnit ∧
  (f.id ≠ pid → f' = f) ∧ (f'.status = f.status ∨ f'.status = .error)

/-- C3: when the outstanding run `p` fails, reconciliation merges only
`status = error` into the job with id `p.id` — the store becomes exactly
`updateFileState p.id (status := error)`, and looking the owning job up
afterwards yields its old record with status `error` (so the status *is*
set): the run is retired, no handle is created or released, and position
by position every job keeps `resultBuffer` (`compressedFile`),
`resultViewHandle` (`compressedUrl`) and all other fields — jobs with a
different id are untouched entirely.  In particular a previously `done`
job keeps its prior output and handle. -/
theorem failureKeepsResult (w : World) (i : Nat) (p : PendingRun)
    (hp : w.pending.get? i = some p) :
    (completeFailure i w).pending = w.pending.eraseIdx i ∧
    (completeFailure i w).createdUrls = w.createdUrls ∧
    (completeFailure i w).revokedUrls = w.revokedUrls ∧
    (completeFailure i w).nextUrl = w.nextUrl ∧
    (completeFailure i w).nextId = w.nextId ∧
    (completeFailure i w).imageFilesState =
      updateFileState p.id (fun f => { f with status := .error }) w.imageFilesState ∧
    List.Forall₂ (resultPreserved p.id) w.imageFilesState
      (completeFailure i w).imageFilesState ∧
    ∀ fs, findFile p.id w.imageFilesState = some fs →
      findFile p.id (completeFailure i w).imageFilesState =
        some { fs with status := .error } := by
  simp only [completeFailure, hp]
  refine ⟨trivial, trivial, trivial, trivial, trivial, trivial, ?_, ?_⟩
  · refine forall₂_updateFileState (fun f => ?_) (fun f hf => ?_)
    · exact ⟨rfl, rfl, rfl, rfl, rfl, rfl, rfl, fun _ => rfl, Or.inl rfl⟩
    · exact ⟨rfl, rfl, rfl, rfl, rfl, rfl, rfl, fun h => absurd hf h, Or.inr rfl⟩
  · intro fs hfs
    rw [@findFile_updateFileState w.imageFilesState p.id (fun f : ImageFileState => { f with status := ImageStatus.error }) (fun _ => rfl), hfs]
    rfl

/-- Witness for `failureKeepsResult`: the outstanding run of `sampleWorld1`
fails; the `done` job keeps its result fields and its status is flipped to
`error`. -/
theorem failureKeepsResult_witness :
    sampleWorld1.pending.get? 0 = some (mkRun 0 10 (JSNum.num 512000)) ∧
    List.Forall₂ (resultPreserved 0) sampleWorld1.imageFilesState
      (completeFailure 0 sampleWorld1).imageFilesState ∧
    findFile 0 (completeFailure 0 sampleWorld1).imageFilesState =
      some { sampleDoneJob with status := .error } :=
  ⟨rfl,
    (failureKeepsResult sampleWorld1 0 (mkRun 0 10 (JSNum.num 512000)) rfl).2.2.2.2.2.2.1,
    (failureKeepsResult sampleWorld1 0 (mkRun 0 10 (JSNum.num 512000)) rfl).2.2.2.2.2.2.2
      sampleDoneJob rfl⟩

/-- C7: dispatching a run for a job whose target parameters are the finite
value `v` with unit KB (resp. MB) registers exactly one transformation
invocation whose byte budget is `v × 1024` (resp. `v × 1024²`); the
`maxSizeMB` option actually handed to the external transformation is that
byte budget divided by 1024 twice, i.e. the same budget expressed in MB. -/
theorem targetBytesSemantics (w : World) (id : Nat) (fs : ImageFileState) (v : ℚ)
    (hfs : findFile id w.imageFilesState = some fs) (hv : fs.targetSize = .num v) :
    (fs.targetUnit = .KB →
      (runCompressionForId id w).pending =
        w.pending ++ [mkRun id fs.originalFile (.num (v * 1024))]) ∧
    (fs.targetUnit = .MB →
      (runCompressionForId id w).pending =
        w.pending ++ [mkRun id fs.originalFile (.num (v * (1024 * 1024)))]) ∧
    (runCompressionForId id w).pending.length = w.pending.length + 1 ∧
    ∀ tb, mkRun id fs.originalFile tb =
      { id := id, sourceFile := fs.originalFile, targetBytes := tb,
        maxSizeMB := jsDivNat (jsDivNat tb 1024) 1024 } := by
  have hpend : (runCompressionForId id w).pending =
      w.pending ++ [mkRun id fs.originalFile
        (jsMulNat (.num v) (multOf fs.targetUnit))] := by
    simp [runCompressionForId, hfs, hv, compressToTargetSize]
  refine ⟨?_, ?_, ?_, fun tb => rfl⟩
  · intro hu
    rw [hpend, hu]
    norm_num [jsMulNat, multOf]
  · intro hu
    rw [hpend, hu]
    norm_num [jsMulNat, multOf]
  · rw [hpend]
    simp

/-- Witness for `targetBytesSemantics`: re-running the 500 KB job of
`sampleWorld0` dispatches one run with a 500 × 1024-byte budget. -/
theorem targetBytesSemantics_witness :
    findFile 0 sampleWorld0.imageFilesState = some sampleDoneJob ∧
    sampleDoneJob.targetSize = JSNum.num 500 ∧
    sampleDoneJob.targetUnit = SizeUnit.KB ∧
    (runCompressionForId 0 sampleWorld0).pending =
      sampleWorld0.pending ++ [mkRun 0 sampleDoneJob.originalFile (.num (500 * 1024))] :=
  ⟨rfl, rfl, rfl,
    (targetBytesSemantics sampleWorld0 0 sampleDoneJob 500 rfl rfl).1 rfl⟩

theorem releaseJobUrls_eq (f : ImageFileState) (w : World) :
    releaseJobUrls f w =
      { w with revokedUrls := w.revokedUrls ++ (f.originalUrl :: f.compressedUrl.toList) } := by
  rcases hcu : f.compressedUrl with _ | h <;>
    simp [releaseJobUrls, revokeObjectURL, hcu]

theorem releaseAll_eq (l : List ImageFileState) : ∀ w : World,
    releaseAll l w =
      { w with revokedUrls := w.revokedUrls ++
          (l.map (fun f => f.originalUrl :: f.compressedUrl.toList)).flatten } := by
  induction l with
  | nil => intro w; simp [releaseAll]
  | cons f rest ih =>
    intro w
    simp only [releaseAll, releaseJobUrls_eq f w, ih, List.map_cons, List.flatten]
    simp [List.append_assoc]

/-- C8: `handleClearAll` revokes, job by job, the source view handle and —
when present — the result view handle of every job (and releases nothing
else and acquires nothing), leaves the store empty, and resets the id
generator to its initial value 0, so that the next submitted file is
created with id 0 again. -/
theorem clearAllSpec (w : World) :
    (handleClearAll w).imageFilesState = [] ∧
    (handleClearAll w).nextId = 0 ∧
    (handleClearAll w).revokedUrls = w.revokedUrls ++
      (w.imageFilesState.map (fun f => f.originalUrl :: f.compressedUrl.toList)).flatten ∧
    (handleClearAll w).createdUrls = w.createdUrls ∧
    (handleClearAll w).pending = w.pending ∧
    ∀ file : Nat,
      (processFiles [file] (handleClearAll w)).imageFilesState.map (fun f => f.id) = [0] := by
  refine ⟨rfl, rfl, ?_, ?_, ?_, ?_⟩
  · simp [handleClearAll, releaseAll_eq]
  · simp [handleClearAll, releaseAll_eq]
  · simp [handleClearAll, releaseAll_eq]
  · intro file
    simp [processFiles, createJobs, createObjectURL, dispatchRuns, runCompressionForId,
      compressToTargetSize, findFile, updateFileState, handleClearAll]

theorem runCompressionForId_none {w : World} {id : Nat}
    (h : findFile id w.imageFilesState = none) :
    runCompressionForId id w = w := by
  simp [runCompressionForId, h]

theorem runCompressionForId_spec {w : World} {id : Nat} {fs : ImageFileState}
    (hfs : findFile id w.imageFilesState = some fs) :
    runCompressionForId id w =
      { w with
        imageFilesState := updateFileState id (fun f => { f with status := .compressing }) w.imageFilesState,
        pending := w.pending ++ [mkRun id fs.originalFile (jsMulNat fs.targetSize (multOf fs.targetUnit))] } := by
  simp [runCompressionForId, hfs, compressToTargetSize]

/-- Full characterization of `handleReset` on present and absent ids. -/
theorem handleReset_eq (w : World) (id : Nat) :
    (findFile id w.imageFilesState = none → handleReset id w = w) ∧
    ∀ fs, findFile id w.imageFilesState = some fs →
      (handleReset id w).revokedUrls = w.revokedUrls ++ fs.compressedUrl.toList ∧
      (handleReset id w).createdUrls = w.createdUrls ∧
      (handleReset id w).nextUrl = w.nextUrl ∧
      (handleReset id w).nextId = w.nextId ∧
      (handleReset id w).imageFilesState =
        updateFileState id (fun f =>
          { f with compressedFile := none, compressedUrl := none,
                   targetSize := .num 500, targetUnit := .KB,
                   status := .compressing }) w.imageFilesState ∧
      (handleReset id w).pending = w.pending ++ [mkRun id fs.originalFile (.num 512000)] := by
  constructor
  · intro h
    simp [handleReset, h]
  · intro fs hfs
    have hid : ∀ f : ImageFileState, ((fun g : ImageFileState => { g with compressedFile := none, compressedUrl := none, targetSize := JSNum.num 500, targetUnit := SizeUnit.KB }) f).id = f.id :=
      fun _ => rfl
    have hbytes : jsMulNat (JSNum.num 500) (multOf SizeUnit.KB) = JSNum.num 512000 := by
      norm_num [jsMulNat, multOf]
    have hfind : findFile id (updateFileState id (fun g : ImageFileState => { g with compressedFile := none, compressedUrl := none, targetSize := JSNum.num 500, targetUnit := SizeUnit.KB }) w.imageFilesState) = some { fs with compressedFile := none, compressedUrl := none, targetSize := JSNum.num 500, targetUnit := SizeUnit.KB } := by
      rw [findFile_updateFileState hid, hfs]
      rfl
    rcases hcu : fs.compressedUrl with _ | h
    · simp only [handleReset, hfs, hcu]
      rw [runCompressionForId_spec hfind]
      refine ⟨by simp, rfl, rfl, rfl, ?_, ?_⟩
      · exact updateFileState_comp _ hid
      · show w.pending ++ [mkRun id fs.originalFile (jsMulNat (JSNum.num 500) (multOf SizeUnit.KB))] = w.pending ++ [mkRun id fs.originalFile (JSNum.num 512000)]
        rw [hbytes]
    · simp only [handleReset, hfs, hcu, revokeObjectURL]
      rw [runCompressionForId_spec hfind]
      refine ⟨by simp, rfl, rfl, rfl, ?_, ?_⟩
      · exact updateFileState_comp _ hid
      · show (w.pending ++ [mkRun id fs.originalFile (jsMulNat (JSNum.num 500) (multOf SizeUnit.KB))]) = w.pending ++ [mkRun id fs.originalFile (JSNum.num 512000)]
        rw [hbytes]

/-- C10: `handleReset` on a present id revokes the job's result view
handle when one exists (and releases nothing else, acquires nothing, and
does not touch the id generator), merges exactly
`{compressedFile := none, compressedUrl := none, targetSize := 500,
targetUnit := KB}` followed by the dispatch's `compressing` status into
that job, and dispatches exactly one fresh run for it with the default
500 × 1024 = 512000-byte budget; on an absent id it is a complete no-op. -/
theorem resetSpec (w : World) (id : Nat) :
    (findFile id w.imageFilesState = none → handleReset id w = w) ∧
    ∀ fs, findFile id w.imageFilesState = some fs →
      (handleReset id w).revokedUrls = w.revokedUrls ++ fs.compressedUrl.toList ∧
      (handleReset id w).createdUrls = w.createdUrls ∧
      (handleReset id w).nextUrl = w.nextUrl ∧
      (handleReset id w).nextId = w.nextId ∧
      (handleReset id w).imageFilesState =
        updateFileState id (fun f =>
          { f with compressedFile := none, compressedUrl := none,
                   targetSize := .num 500, targetUnit := .KB,
                   status := .compressing }) w.imageFilesState ∧
      (handleReset id w).pending = w.pending ++ [mkRun id fs.originalFile (.num 512000)] :=
  handleReset_eq w id

/-- Witness for `resetSpec`: resetting the `done` job of `sampleWorld0`
revokes its result handle and dispatches one 512000-byte default run. -/
theorem resetSpec_witness :
    findFile 0 sampleWorld0.imageFilesState = some sampleDoneJob ∧
    (handleReset 0 sampleWorld0).revokedUrls =
      sampleWorld0.revokedUrls ++ sampleDoneJob.compressedUrl.toList ∧
    (handleReset 0 sampleWorld0).pending =
      sampleWorld0.pending ++ [mkRun 0 sampleDoneJob.originalFile (.num 512000)] :=
  ⟨rfl, ((resetSpec sampleWorld0 0).2 sampleDoneJob rfl).1,
    ((resetSpec sampleWorld0 0).2 sampleDoneJob rfl).2.2.2.2.2⟩

theorem applyToAllBatch_eq (s : JSNum) (u : SizeUnit) (sel : List ImageFileState) :
    ∀ w : World, applyToAllBatch s u sel w =
      { w with imageFilesState := sel.foldl (fun acc f => updateFileState f.id (fun g => { g with targetSize := s, targetUnit := u, status := .compressing }) acc) w.imageFilesState } := by
  induction sel with
  | nil => intro w; simp [applyToAllBatch]
  | cons f rest ih =>
    intro w
    simp only [applyToAllBatch, List.foldl_cons]
    rw [ih]

theorem foldl_update_skip (upd : ImageFileState → ImageFileState) :
    ∀ (sel : List ImageFileState) (x : ImageFileState) (l : List ImageFileState),
      (∀ g ∈ sel, g.id ≠ x.id) →
      sel.foldl (fun acc f => updateFileState f.id upd acc) (x :: l) =
        x :: sel.foldl (fun acc f => updateFileState f.id upd acc) l := by
  intro sel
  induction sel with
  | nil => intro x l _; rfl
  | cons g rest ih =>
    intro x l h
    have hxg : ¬ x.id = g.id := fun he =>
      h g (List.mem_cons_self g rest) he.symm
    simp only [List.foldl_cons, updateFileState, if_neg hxg]
    exact ih x _ (fun g' hg' => h g' (List.mem_cons_of_mem g hg'))

theorem filter_foldl_update_eq_map (upd : ImageFileState → ImageFileState)
    (P : ImageFileState → Bool) (hid : ∀ f, (upd f).id = f.id) :
    ∀ l : List ImageFileState, UniqueIds l →
      (l.filter P).foldl (fun acc f => updateFileState f.id upd acc) l =
        l.map (fun f => if P f then upd f else f) := by
  intro l
  induction l with
  | nil => intro _; rfl
  | cons x xs ih =>
    intro hU
    simp only [UniqueIds, List.map_cons, List.nodup_cons] at hU
    have hskip : ∀ g ∈ xs.filter P, g.id ≠ x.id := by
      intro g hg he
      exact hU.1 (he ▸ List.mem_map_of_mem (fun f => f.id) (List.mem_of_mem_filter hg))
    rcases hP : P x with _ | _
    · rw [List.filter_cons, if_neg (by simp [hP]), List.map_cons, if_neg (by simp [hP])]
      rw [foldl_update_skip upd _ x xs hskip, ih hU.2]
    · have hskip' : ∀ g ∈ xs.filter P, g.id ≠ (upd x).id := by
        intro g hg
        rw [hid x]
        exact hskip g hg
      have hupdx : updateFileState x.id upd (x :: xs) = upd x :: xs := by
        simp [updateFileState]
      rw [List.filter_cons, if_pos hP, List.map_cons, if_pos hP, List.foldl_cons, hupdx]
      rw [foldl_update_skip upd _ (upd x) xs hskip', ih hU.2]

theorem compressToTargetSize_absent {w : World} {id : Nat} (tb : JSNum) (sup : Bool)
    (h : findFile id w.imageFilesState = none) :
    compressToTargetSize id tb sup w = w := by
  simp [compressToTargetSize, h]

theorem compressToTargetSize_suppress_spec {w : World} {id : Nat} {g : ImageFileState}
    (tb : JSNum) (hg : findFile id w.imageFilesState = some g) :
    compressToTargetSize id tb true w =
      { w with pending := w.pending ++ [mkRun id g.originalFile tb] } := by
  simp [compressToTargetSize, hg]

theorem applyToAllDispatch_spec (s : JSNum) (u : SizeUnit) :
    ∀ (sel : List ImageFileState) (w : World),
      (∀ f ∈ sel, ∃ g, findFile f.id w.imageFilesState = some g ∧
        g.originalFile = f.originalFile) →
      applyToAllDispatch s u sel w =
        { w with pending := w.pending ++ sel.map (fun f => mkRun f.id f.originalFile (jsMulNat s (multOf u))) } := by
  intro sel
  induction sel with
  | nil => intro w _; simp [applyToAllDispatch]
  | cons f rest ih =>
    intro w h
    obtain ⟨g, hg, horig⟩ := h f (List.mem_cons_self f rest)
    simp only [applyToAllDispatch]
    rw [compressToTargetSize_suppress_spec _ hg, horig]
    rw [ih { w with pending := w.pending ++ [mkRun f.id f.originalFile (jsMulNat s (multOf u))] } (fun f' hf' => h f' (List.mem_cons_of_mem f hf'))]
    simp [List.append_assoc]

/-- Full characterization of a valid `handleApplyToAll` as the two-phase
batch-then-dispatch composition. -/
theorem handleApplyToAll_eq (w : World) (s : JSNum) (u : SizeUnit)
    (hU : UniqueIds w.imageFilesState)
    (hNaN : s.isNaN = false) (hPos : s.leZero = false) :
    (applyToAllBatch s u (w.imageFilesState.filter (fun f => !(f.status == .error))) w).imageFilesState =
      w.imageFilesState.map (fun f => if !(f.status == ImageStatus.error) then { f with targetSize := s, targetUnit := u, status := ImageStatus.compressing } else f) ∧
    (applyToAllBatch s u (w.imageFilesState.filter (fun f => !(f.status == .error))) w).pending = w.pending ∧
    (∀ f ∈ w.imageFilesState, f.status ≠ .error →
      { f with targetSize := s, targetUnit := u, status := ImageStatus.compressing } ∈
        (applyToAllBatch s u (w.imageFilesState.filter (fun f => !(f.status == .error))) w).imageFilesState) ∧
    (∀ f ∈ w.imageFilesState, f.status = .error →
      f ∈ (applyToAllBatch s u (w.imageFilesState.filter (fun f => !(f.status == .error))) w).imageFilesState) ∧
    handleApplyToAll s u w =
      applyToAllDispatch s u (w.imageFilesState.filter (fun f => !(f.status == .error)))
        (applyToAllBatch s u (w.imageFilesState.filter (fun f => !(f.status == .error))) w) ∧
    (handleApplyToAll s u w).imageFilesState =
      (applyToAllBatch s u (w.imageFilesState.filter (fun f => !(f.status == .error))) w).imageFilesState ∧
    (handleApplyToAll s u w).pending =
      w.pending ++ (w.imageFilesState.filter (fun f => !(f.status == .error))).map (fun f => mkRun f.id f.originalFile (jsMulNat s (multOf u))) := by
  have hid : ∀ f : ImageFileState, ((fun g : ImageFileState => { g with targetSize := s, targetUnit := u, status := ImageStatus.compressing }) f).id = f.id :=
    fun _ => rfl
  have himgid : ∀ f : ImageFileState, ((fun f : ImageFileState => if !(f.status == ImageStatus.error) then { f with targetSize := s, targetUnit := u, status := ImageStatus.compressing } else f) f).id = f.id := by
    intro f
    dsimp only
    split <;> rfl
  have hfiles : (applyToAllBatch s u (w.imageFilesState.filter (fun f => !(f.status == .error))) w).imageFilesState =
      w.imageFilesState.map (fun f => if !(f.status == ImageStatus.error) then { f with targetSize := s, targetUnit := u, status := ImageStatus.compressing } else f) := by
    rw [applyToAllBatch_eq]
    exact filter_foldl_update_eq_map _ _ hid w.imageFilesState hU
  have hpend : (applyToAllBatch s u (w.imageFilesState.filter (fun f => !(f.status == .error))) w).pending = w.pending := by
    rw [applyToAllBatch_eq]
  have hcond : (s.isNaN || s.leZero) = false := by rw [hNaN, hPos]; rfl
  have hsplit : handleApplyToAll s u w =
      applyToAllDispatch s u (w.imageFilesState.filter (fun f => !(f.status == .error)))
        (applyToAllBatch s u (w.imageFilesState.filter (fun f => !(f.status == .error))) w) := by
    simp only [handleApplyToAll, hcond, Bool.false_eq_true, if_false]
    by_cases h0 : (w.imageFilesState.filter (fun f => !(f.status == ImageStatus.error))).length = 0
    · rw [if_pos h0]
      rw [List.length_eq_zero] at h0
      rw [h0]
      rfl
    · rw [if_neg h0]
  have hfind : ∀ f ∈ w.imageFilesState.filter (fun f => !(f.status == ImageStatus.error)),
      ∃ g, findFile f.id (applyToAllBatch s u (w.imageFilesState.filter (fun f => !(f.status == .error))) w).imageFilesState = some g ∧ g.originalFile = f.originalFile := by
    intro f hf
    have hfmem : f ∈ w.imageFilesState := List.mem_of_mem_filter hf
    refine ⟨(fun f : ImageFileState => if !(f.status == ImageStatus.error) then { f with targetSize := s, targetUnit := u, status := ImageStatus.compressing } else f) f, ?_, ?_⟩
    · rw [hfiles, findFile_map f.id himgid, findFile_of_nodup_mem hU hfmem]
      rfl
    · dsimp only
      split <;> rfl
  have hdisp := applyToAllDispatch_spec s u
    (w.imageFilesState.filter (fun f => !(f.status == .error)))
    (applyToAllBatch s u (w.imageFilesState.filter (fun f => !(f.status == .error))) w) hfind
  refine ⟨hfiles, hpend, ?_, ?_, hsplit, ?_, ?_⟩
  · intro f hf hferr
    rw [hfiles]
    have := List.mem_map_of_mem (fun f : ImageFileState => if !(f.status == ImageStatus.error) then { f with targetSize := s, targetUnit := u, status := ImageStatus.compressing } else f) hf
    simpa [hferr] using this
  · intro f hf hferr
    rw [hfiles]
    have := List.mem_map_of_mem (fun f : ImageFileState => if !(f.status == ImageStatus.error) then { f with targetSize := s, targetUnit := u, status := ImageStatus.compressing } else f) hf
    simpa [hferr] using this
  · rw [hsplit, hdisp]
  · rw [hsplit, hdisp]
    simp [hpend]

/-- C5: with a valid size, `handleApplyToAll` is exactly the two-phase
batch-then-dispatch composition: phase 1 batch-updates precisely the jobs
whose status is not `error` (so `done` and `compressing` jobs alike) to
the new parameters with status `compressing`, leaving `error` jobs
untouched and dispatching nothing yet — so any aggregate computed between
the phases sees every selected job already running with the new
parameters; phase 2 then dispatches exactly one run per selected job. -/
theorem applyToAllTwoPhase (w : World) (s : JSNum) (u : SizeUnit)
    (hU : UniqueIds w.imageFilesState)
    (hNaN : s.isNaN = false) (hPos : s.leZero = false) :
    (applyToAllBatch s u (w.imageFilesState.filter (fun f => !(f.status == .error))) w).imageFilesState =
      w.imageFilesState.map (fun f => if !(f.status == ImageStatus.error) then { f with targetSize := s, targetUnit := u, status := ImageStatus.compressing } else f) ∧
    (applyToAllBatch s u (w.imageFilesState.filter (fun f => !(f.status == .error))) w).pending = w.pending ∧
    (∀ f ∈ w.imageFilesState, f.status ≠ .error →
      { f with targetSize := s, targetUnit := u, status := ImageStatus.compressing } ∈
        (applyToAllBatch s u (w.imageFilesState.filter (fun f => !(f.status == .error))) w).imageFilesState) ∧
    (∀ f ∈ w.imageFilesState, f.status = .error →
      f ∈ (applyToAllBatch s u (w.imageFilesState.filter (fun f => !(f.status == .error))) w).imageFilesState) ∧
    handleApplyToAll s u w =
      applyToAllDispatch s u (w.imageFilesState.filter (fun f => !(f.status == .error)))
        (applyToAllBatch s u (w.imageFilesState.filter (fun f => !(f.status == .error))) w) ∧
    (handleApplyToAll s u w).imageFilesState =
      (applyToAllBatch s u (w.imageFilesState.filter (fun f => !(f.status == .error))) w).imageFilesState ∧
    (handleApplyToAll s u w).pending =
      w.pending ++ (w.imageFilesState.filter (fun f => !(f.status == .error))).map (fun f => mkRun f.id f.originalFile (jsMulNat s (multOf u))) :=
  handleApplyToAll_eq w s u hU hNaN hPos

/-- Witness for `applyToAllTwoPhase` on the mixed-status store: the `done`
job is selected and dispatched, the `error` job is untouched. -/
theorem applyToAllTwoPhase_witness :
    UniqueIds sampleWorldMixed.imageFilesState ∧
    JSNum.isNaN (.num 300) = false ∧ JSNum.leZero (.num 300) = false ∧
    (handleApplyToAll (.num 300) .MB sampleWorldMixed).pending =
      sampleWorldMixed.pending ++ (sampleWorldMixed.imageFilesState.filter (fun f => !(f.status == .error))).map (fun f => mkRun f.id f.originalFile (jsMulNat (.num 300) (multOf .MB))) :=
  ⟨by unfold UniqueIds; decide, rfl, by decide,
    (applyToAllTwoPhase sampleWorldMixed (.num 300) .MB (by unfold UniqueIds; decide) rfl
      (by decide)).2.2.2.2.2.2⟩

/-- Every outstanding run belongs to a job still in the store and still
marked `compressing` — the situation the UI guards are designed around.
(It can be broken by removing a job whose run is in flight; see the id
reuse counterexample.) -/
def PendingBacked (w : World) : Prop :=
  ∀ p ∈ w.pending, ∃ f ∈ w.imageFilesState, f.id = p.id ∧ f.status = .compressing

/-- C6 as amended: per-item Apply and Reset are rendered disabled for a
`compressing` job and the ApplyToAll button is disabled while any job is
compressing; under those guards, and as long as every outstanding run is
still backed by a compressing job in the store, none of these three
operations dispatches a second run for an id that already has one: for a
guarded Apply/Reset the target id has no outstanding run and exactly one
new run is dispatched, and a guarded ApplyToAll starts from an empty
outstanding set and dispatches at most one run per id.  (Submit after
Remove-while-in-flight plus ClearAll breaks the proviso by reusing an id —
the counterexample.) -/
theorem guardedOpsNoDuplicateRun (w : World) (s : JSNum) (u : SizeUnit)
    (id : Nat) (fs : ImageFileState)
    (hInv : PendingBacked w) (hU : UniqueIds w.imageFilesState) :
    (findFile id w.imageFilesState = some fs → fs.status ≠ .compressing →
      w.pending.filter (fun p => p.id == id) = [] ∧
      (handleTargetSizeApply id s u w).pending =
        w.pending ++ [mkRun id fs.originalFile (jsMulNat s (multOf u))] ∧
      (handleReset id w).pending =
        w.pending ++ [mkRun id fs.originalFile (JSNum.num 512000)]) ∧
    (anyCompressing w.imageFilesState = false →
      w.pending = [] ∧
      ((handleApplyToAll s u w).pending.map (fun p => p.id)).Nodup) := by
  constructor
  · intro hfs hst
    have hnop : ∀ p ∈ w.pending, ¬ (p.id = id) := by
      intro p hp he
      obtain ⟨f, hfmem, hfid, hfc⟩ := hInv p hp
      have hff : findFile f.id w.imageFilesState = some f := findFile_of_nodup_mem hU hfmem
      rw [hfid, he, hfs] at hff
      exact hst (by rw [Option.some_inj.mp hff]; exact hfc)
    refine ⟨?_, ?_, ?_⟩
    · rw [List.filter_eq_nil_iff]
      intro p hp
      simpa using hnop p hp
    · have hfind2 : findFile id (updateFileState id (fun f : ImageFileState => { f with targetSize := s, targetUnit := u }) w.imageFilesState) = some { fs with targetSize := s, targetUnit := u } := by
        rw [@findFile_updateFileState w.imageFilesState id (fun f : ImageFileState => { f with targetSize := s, targetUnit := u }) (fun _ => rfl), hfs]
        rfl
      simp only [handleTargetSizeApply]
      rw [runCompressionForId_spec hfind2]
    · exact ((handleReset_eq w id).2 fs hfs).2.2.2.2.2
  · intro hnc
    have hemp : w.pending = [] := by
      rcases hp : w.pending with _ | ⟨p, ps⟩
      · rfl
      · obtain ⟨f, hfmem, _, hfc⟩ := hInv p (by rw [hp]; exact List.mem_cons_self p ps)
        have hany : anyCompressing w.imageFilesState = true := by
          simp only [anyCompressing, List.any_eq_true]
          exact ⟨f, hfmem, by simp [hfc]⟩
        rw [hnc] at hany
        cases hany
    refine ⟨hemp, ?_⟩
    by_cases hvalid : (s.isNaN || s.leZero) = true
    · have hnoop : handleApplyToAll s u w = w := by
        simp [handleApplyToAll, hvalid]
      rw [hnoop, hemp]
      simp
    · have hvalid' : (s.isNaN || s.leZero) = false := by
        simpa using hvalid
      have hNaN : s.isNaN = false := by
        rcases Bool.or_eq_false_iff.mp hvalid' with ⟨h1, _⟩
        exact h1
      have hPos : s.leZero = false := by
        rcases Bool.or_eq_false_iff.mp hvalid' with ⟨_, h2⟩
        exact h2
      rw [(handleApplyToAll_eq w s u hU hNaN hPos).2.2.2.2.2.2, hemp]
      simp only [List.nil_append, List.map_map]
      have hsub : List.Sublist ((w.imageFilesState.filter (fun f => !(f.status == ImageStatus.error))).map (fun f => f.id)) (w.imageFilesState.map (fun f => f.id)) :=
        (List.filter_sublist w.imageFilesState).map (fun f => f.id)
      have : ((fun p : PendingRun => p.id) ∘ fun f : ImageFileState => mkRun f.id f.originalFile (jsMulNat s (multOf u))) = fun f : ImageFileState => f.id := by
        funext f
        rfl
      rw [this]
      exact hU.sublist hsub

/-- Witness for `guardedOpsNoDuplicateRun`: in `sampleWorld0` (one `done`
job, nothing outstanding) a guarded per-item Apply dispatches exactly one
run for an id with no outstanding run. -/
theorem guardedOpsNoDuplicateRun_witness :
    PendingBacked sampleWorld0 ∧ UniqueIds sampleWorld0.imageFilesState ∧
    findFile 0 sampleWorld0.imageFilesState = some sampleDoneJob ∧
    sampleDoneJob.status ≠ .compressing ∧
    (handleTargetSizeApply 0 (.num 250) .KB sampleWorld0).pending =
      sampleWorld0.pending ++ [mkRun 0 sampleDoneJob.originalFile (jsMulNat (.num 250) (multOf .KB))] := by
  have hInv : PendingBacked sampleWorld0 := by
    intro p hp
    simp [sampleWorld0] at hp
  have hU : UniqueIds sampleWorld0.imageFilesState := by
    unfold UniqueIds
    decide
  exact ⟨hInv, hU, rfl, by decide,
    ((guardedOpsNoDuplicateRun sampleWorld0 (.num 250) .KB 0 sampleDoneJob hInv hU).1
      rfl (by decide)).2.1⟩

section FilesOkPreservation

theorem filesOk_compressToTargetSize (id : Nat) (tb : JSNum) (sup : Bool) {w : World}
    (h : FilesOk w.imageFilesState) :
    FilesOk (compressToTargetSize id tb sup w).imageFilesState := by
  rcases hf : findFile id w.imageFilesState with _ | fs
  · rw [compressToTargetSize_absent tb sup hf]
    exact h
  · cases sup
    · simp only [compressToTargetSize, hf, Bool.false_eq_true, if_false]
      exact filesOk_updateFileState h (fun f _ => by intro hdone; exact ImageStatus.noConfusion hdone)
    · rw [compressToTargetSize_suppress_spec tb hf]
      exact h

theorem filesOk_runCompressionForId (id : Nat) {w : World}
    (h : FilesOk w.imageFilesState) :
    FilesOk (runCompressionForId id w).imageFilesState := by
  rcases hf : findFile id w.imageFilesState with _ | fs
  · rw [runCompressionForId_none hf]
    exact h
  · simp only [runCompressionForId, hf]
    exact filesOk_compressToTargetSize _ _ _ h

theorem filesOk_dispatchRuns (js : List ImageFileState) :
    ∀ w : World, FilesOk w.imageFilesState →
      FilesOk (dispatchRuns js w).imageFilesState := by
  induction js with
  | nil => intro w h; exact h
  | cons j rest ih => intro w h; exact ih _ (filesOk_runCompressionForId j.id h)

theorem createJobs_files (files : List Nat) :
    ∀ w : World, (createJobs files w).2.imageFilesState = w.imageFilesState := by
  induction files with
  | nil => intro w; rfl
  | cons file rest ih =>
    intro w
    simp only [createJobs, createObjectURL]
    rw [ih]

theorem createJobs_status (files : List Nat) :
    ∀ w : World, ∀ j ∈ (createJobs files w).1, j.status = .compressing := by
  induction files with
  | nil => intro w j hj; cases hj
  | cons file rest ih =>
    intro w j hj
    simp only [createJobs] at hj
    rcases List.mem_cons.mp hj with rfl | hj
    · rfl
    · exact ih _ j hj

theorem filesOk_processFiles (files : List Nat) {w : World}
    (h : FilesOk w.imageFilesState) :
    FilesOk (processFiles files w).imageFilesState := by
  apply filesOk_dispatchRuns
  intro f hf
  rcases List.mem_append.mp hf with hf | hf
  · rw [createJobs_files files w] at hf
    exact h f hf
  · intro hdone
    rw [createJobs_status files w f hf] at hdone
    exact absurd hdone (by decide)

theorem filesOk_handleRemoveImage (id : Nat) {w : World}
    (h : FilesOk w.imageFilesState) :
    FilesOk (handleRemoveImage id w).imageFilesState := by
  intro f hf
  rcases hff : findFile id w.imageFilesState with _ | fs
  · simp only [handleRemoveImage, hff] at hf
    exact h f (List.mem_of_mem_filter hf)
  · rcases hcu : fs.compressedUrl with _ | hdl <;>
      simp only [handleRemoveImage, hff, hcu, revokeObjectURL] at hf <;>
      exact h f (List.mem_of_mem_filter hf)

theorem filesOk_handleTargetSizeApply (id : Nat) (s : JSNum) (u : SizeUnit) {w : World}
    (h : FilesOk w.imageFilesState) :
    FilesOk (handleTargetSizeApply id s u w).imageFilesState := by
  apply filesOk_runCompressionForId
  exact filesOk_updateFileState h (fun f hok => hok)

theorem filesOk_handleReset (id : Nat) {w : World}
    (h : FilesOk w.imageFilesState) :
    FilesOk (handleReset id w).imageFilesState := by
  rcases hff : findFile id w.imageFilesState with _ | fs
  · rw [(handleReset_eq w id).1 hff]
    exact h
  · rw [((handleReset_eq w id).2 fs hff).2.2.2.2.1]
    exact filesOk_updateFileState h (fun f _ => by intro hdone; exact ImageStatus.noConfusion hdone)

theorem compressToTargetSize_true_files (id : Nat) (tb : JSNum) (w : World) :
    (compressToTargetSize id tb true w).imageFilesState = w.imageFilesState := by
  rcases hf : findFile id w.imageFilesState with _ | fs
  · rw [compressToTargetSize_absent tb true hf]
  · rw [compressToTargetSize_suppress_spec tb hf]

theorem applyToAllDispatch_files (s : JSNum) (u : SizeUnit) :
    ∀ (sel : List ImageFileState) (w : World),
      (applyToAllDispatch s u sel w).imageFilesState = w.imageFilesState := by
  intro sel
  induction sel with
  | nil => intro w; rfl
  | cons f rest ih =>
    intro w
    simp only [applyToAllDispatch]
    rw [ih, compressToTargetSize_true_files]

theorem handleApplyToAll_split {s : JSNum} (u : SizeUnit) (w : World)
    (hcond : (s.isNaN || s.leZero) = false) :
    handleApplyToAll s u w =
      applyToAllDispatch s u (w.imageFilesState.filter (fun f => !(f.status == .error)))
        (applyToAllBatch s u (w.imageFilesState.filter (fun f => !(f.status == .error))) w) := by
  simp only [handleApplyToAll, hcond, Bool.false_eq_true, if_false]
  by_cases h0 : (w.imageFilesState.filter (fun f => !(f.status == ImageStatus.error))).length = 0
  · rw [if_pos h0]
    rw [List.length_eq_zero] at h0
    rw [h0]
    rfl
  · rw [if_neg h0]

theorem filesOk_foldl_update (s : JSNum) (u : SizeUnit) :
    ∀ (sel : List ImageFileState) (l : List ImageFileState), FilesOk l →
      FilesOk (sel.foldl (fun acc f => updateFileState f.id (fun g => { g with targetSize := s, targetUnit := u, status := .compressing }) acc) l) := by
  intro sel
  induction sel with
  | nil => intro l h; exact h
  | cons f rest ih =>
    intro l h
    exact ih _ (filesOk_updateFileState h (fun g _ => by intro hdone; exact ImageStatus.noConfusion hdone))

theorem filesOk_handleApplyToAll (s : JSNum) (u : SizeUnit) {w : World}
    (h : FilesOk w.imageFilesState) :
    FilesOk (handleApplyToAll s u w).imageFilesState := by
  by_cases hv : (s.isNaN || s.leZero) = true
  · have hw : handleApplyToAll s u w = w := by simp [handleApplyToAll, hv]
    rw [hw]
    exact h
  · have hv' : (s.isNaN || s.leZero) = false := by simpa using hv
    rw [handleApplyToAll_split u w hv', applyToAllDispatch_files, applyToAllBatch_eq]
    exact filesOk_foldl_update s u _ _ h

theorem filesOk_handleClearAll {w : World} :
    FilesOk (handleClearAll w).imageFilesState := by
  intro f hf
  cases hf

theorem filesOk_completeSuccess (i output : Nat) {w : World}
    (h : FilesOk w.imageFilesState) :
    FilesOk (completeSuccess i output w).imageFilesState := by
  rcases hp : w.pending.get? i with _ | p
  · simp only [completeSuccess, hp]
    exact h
  · simp only [completeSuccess, hp, createObjectURL]
    exact filesOk_updateFileState h (fun f _ => by intro _; rfl)

theorem filesOk_completeFailure (i : Nat) {w : World}
    (h : FilesOk w.imageFilesState) :
    FilesOk (completeFailure i w).imageFilesState := by
  rcases hp : w.pending.get? i with _ | p
  · simp only [completeFailure, hp]
    exact h
  · simp only [completeFailure, hp]
    exact filesOk_updateFileState h (fun f hok => by intro hdone; exact ImageStatus.noConfusion hdone)

end FilesOkPreservation

/-- Every reachable store satisfies the §3 invariant that a `done` job has
a result buffer: the success reconciliation is the only writer of `done`
and it stores the buffer in the same atomic update. -/
theorem reachable_filesOk {w : World} (hw : Reachable w) :
    FilesOk w.imageFilesState := by
  induction hw with
  | init => intro f hf; cases hf
  | submit files _ ih => exact filesOk_processFiles files ih
  | remove id _ ih => exact filesOk_handleRemoveImage id ih
  | applyItem id s u _ ih => exact filesOk_handleTargetSizeApply id s u ih
  | reset id _ ih => exact filesOk_handleReset id ih
  | applyAll s u _ ih => exact filesOk_handleApplyToAll s u ih
  | clearAll _ _ => exact filesOk_handleClearAll
  | completeOk i output _ ih => exact filesOk_completeSuccess i output ih
  | completeErr i _ ih => exact filesOk_completeFailure i ih

/-- Witness-style corollary of `clearAllSpec` at a concrete session: after
clearing `sampleWorld1`, the next submitted file gets id 0. -/
theorem clearAllSpec_witness :
    (processFiles [7] (handleClearAll sampleWorld1)).imageFilesState.map (fun f => f.id) = [0] :=
  (clearAllSpec sampleWorld1).2.2.2.2.2 7

/-- C9: on every reachable store, the recomputed aggregates of
`updateGlobalUI` satisfy the spec: the badge count equals the plain count
of `done` jobs, `anyCompressing` holds iff some job is running, the
export (download-all) button is enabled iff there is at least one `done`
job and nothing is running, and both apply-to-all and clear-all are
enabled iff nothing is running. -/
theorem aggregatesSpec (w : World) (hw : Reachable w) :
    readyToDownloadCount w.imageFilesState =
      (w.imageFilesState.filter (fun f => f.status == .done)).length ∧
    (anyCompressing w.imageFilesState = true ↔
      ∃ f ∈ w.imageFilesState, f.status = .compressing) ∧
    (downloadAllEnabled w.imageFilesState = true ↔
      (0 < (w.imageFilesState.filter (fun f => f.status == .done)).length ∧
        ¬ ∃ f ∈ w.imageFilesState, f.status = .compressing)) ∧
    (applyToAllEnabled w.imageFilesState = true ↔
      ¬ ∃ f ∈ w.imageFilesState, f.status = .compressing) ∧
    (clearAllEnabled w.imageFilesState = true ↔
      ¬ ∃ f ∈ w.imageFilesState, f.status = .compressing) := by
  have hok := reachable_filesOk hw
  have hcount : readyToDownloadCount w.imageFilesState =
      (w.imageFilesState.filter (fun f => f.status == .done)).length := by
    unfold readyToDownloadCount
    congr 1
    apply List.filter_congr
    intro f hf
    by_cases hst : f.status = ImageStatus.done
    · have := hok f hf hst
      simp [hst, this]
    · simp [hst]
  have hcomp : anyCompressing w.imageFilesState = true ↔
      ∃ f ∈ w.imageFilesState, f.status = .compressing := by
    simp [anyCompressing, List.any_eq_true]
  have hdone : anyDone w.imageFilesState = true ↔
      0 < (w.imageFilesState.filter (fun f => f.status == .done)).length := by
    rw [anyDone, List.any_eq_true]
    constructor
    · rintro ⟨f, hf, hfd⟩
      exact List.length_pos.mpr (List.ne_nil_of_mem (List.mem_filter.mpr ⟨hf, hfd⟩))
    · intro hlen
      obtain ⟨f, hf⟩ := List.exists_mem_of_length_pos hlen
      exact ⟨f, List.mem_filter.mp hf⟩
  refine ⟨hcount, hcomp, ?_, ?_, ?_⟩
  · unfold downloadAllEnabled
    rw [Bool.not_eq_true', Bool.or_eq_false_iff]
    constructor
    · rintro ⟨h1, h2⟩
      rw [Bool.not_eq_false'] at h2
      exact ⟨hdone.mp h2, fun hex => by rw [hcomp.mpr hex] at h1; cases h1⟩
    · rintro ⟨h1, h2⟩
      refine ⟨?_, ?_⟩
      · rcases hb : anyCompressing w.imageFilesState with _ | _
        · rfl
        · exact absurd (hcomp.mp hb) h2
      · rw [Bool.not_eq_false']
        exact hdone.mpr h1
  · unfold applyToAllEnabled
    rw [Bool.not_eq_true']
    constructor
    · intro h1 hex
      rw [hcomp.mpr hex] at h1
      cases h1
    · intro h2
      rcases hb : anyCompressing w.imageFilesState with _ | _
      · rfl
      · exact absurd (hcomp.mp hb) h2
  · unfold clearAllEnabled
    rw [Bool.not_eq_true']
    constructor
    · intro h1 hex
      rw [hcomp.mpr hex] at h1
      cases h1
    · intro h2
      rcases hb : anyCompressing w.imageFilesState with _ | _
      · rfl
      · exact absurd (hcomp.mp hb) h2

/-- Witness for `aggregatesSpec` on the reachable world obtained by
submitting one image and letting its run succeed: one `done` job. -/
theorem aggregatesSpec_witness :
    Reachable (completeSuccess 0 100 (processFiles [5] initialWorld)) ∧
    readyToDownloadCount (completeSuccess 0 100 (processFiles [5] initialWorld)).imageFilesState =
      ((completeSuccess 0 100 (processFiles [5] initialWorld)).imageFilesState.filter
        (fun f => f.status == .done)).length :=
  ⟨Reachable.completeOk 0 100 (Reachable.submit [5] Reachable.init),
    (aggregatesSpec (completeSuccess 0 100 (processFiles [5] initialWorld))
      (Reachable.completeOk 0 100 (Reachable.submit [5] Reachable.init))).1⟩

end ImageCompressor
